import Mathlib

/-!
A shallow embedding of the client-side vault persistence and synchronization
logic of the prompt-base UI (src/utils/localStorage.ts, src/services/api.ts,
and the VaultPage component), together with theorems checking the
natural-language specification against it.

Browser localStorage is modelled as a `Storage` record with one slot per
storage key used by the code (`promptVault`, `promptbase_prompt_codes`,
`promptbase_comment_codes`).  A slot is `absent` (key not set), `corrupt`
(a stored string on which `JSON.parse` throws), or `stored v` (a string that
parses back to the value `v`).  A `writeFails` flag models the environment in
which `localStorage.setItem` throws (e.g. quota exceeded); `removeItem` and
`getItem` never throw.
-/

namespace PromptBase

/-- The `Prompt` interface from the repository's types module.  `username`,
`created_at`, `updated_at` are nullable/possibly-absent at runtime (the code
guards on their truthiness), `comment_count` is optional.  JS numbers are
modelled as `Int`. -/
structure Prompt where
  prompt_id : String
  title : String
  content : String
  username : Option String
  tags : List String
  created_at : Option String
  updated_at : Option String
  comment_count : Option Int
deriving DecidableEq, Repr

/-- One localStorage slot: the key may be absent, hold a string that
`JSON.parse` rejects (corrupt), or hold a string that parses to `v`. -/
inductive Slot (α : Type) where
  | absent : Slot α
  | corrupt : Slot α
  | stored (v : α) : Slot α
deriving DecidableEq, Repr

/-- The browser storage state used by the code: the vault prompt list and the
two id→modification-code maps (each persisted as an array of pairs), plus a
flag saying whether `localStorage.setItem` throws. -/
structure Storage where
  vault : Slot (List Prompt)
  promptCodes : Slot (List (String × String))
  commentCodes : Slot (List (String × String))
  writeFails : Bool
deriving DecidableEq, Repr

/-- `getVaultPrompts`: read the vault list; absent key or a `JSON.parse`
failure both yield the empty list (the catch branch). -/
def getVaultPrompts (s : Storage) : List Prompt :=
  match s.vault with
  | .stored v => v
  | _ => []

/-- Replace first entry with a matching `prompt_id` in place, otherwise
append: models `findIndex` followed by index assignment when found
(`currentVault[existingIndex] = promptToSave`) and `push` otherwise. -/
def upsertList (promptToSave : Prompt) : List Prompt → List Prompt
  | [] => [promptToSave]
  | q :: l =>
      if q.prompt_id == promptToSave.prompt_id then promptToSave :: l
      else q :: upsertList promptToSave l

/-- `savePromptToVault`: upsert then `setItem`; if `setItem` throws the catch
branch returns `false` and storage is unchanged. -/
def savePromptToVault (promptToSave : Prompt) (s : Storage) : Bool × Storage :=
  let currentVault := getVaultPrompts s
  let newVault := upsertList promptToSave currentVault
  if s.writeFails then (false, s)
  else (true, { s with vault := .stored newVault })

/-- `removePromptFromVault`: filter out the id; write back (and return
`true`) only when the filtered list is shorter.  A throwing `setItem` is
caught and reported as `false`. -/
def removePromptFromVault (promptId : String) (s : Storage) : Bool × Storage :=
  let currentVault := getVaultPrompts s
  let updatedVault := currentVault.filter (fun p => !(p.prompt_id == promptId))
  if updatedVault.length < currentVault.length then
    if s.writeFails then (false, s)
    else (true, { s with vault := .stored updatedVault })
  else (false, s)

/-- `isPromptInVault`: `some` over the current vault list. -/
def isPromptInVault (promptId : String) (s : Storage) : Bool :=
  (getVaultPrompts s).any (fun p => p.prompt_id == promptId)

/-- `new Map(pairs)` from an array of key/value pairs: first occurrence fixes
the position of a key, a later pair with the same key overwrites its value. -/
def mapFromPairs (l : List (String × String)) : List (String × String) :=
  l.foldl
    (fun acc kv =>
      if acc.any (fun p => p.1 == kv.1) then
        acc.map (fun p => if p.1 == kv.1 then (p.1, kv.2) else p)
      else acc ++ [kv])
    []

/-- `getPromptCodes`: parse the stored pair array into a Map; absent or
corrupt storage yields the empty map. -/
def getPromptCodes (s : Storage) : List (String × String) :=
  match s.promptCodes with
  | .stored l => mapFromPairs l
  | _ => []

/-- `getPromptCode`: look up one prompt id in the prompt-code map. -/
def getPromptCode (promptId : String) (s : Storage) : Option String :=
  ((getPromptCodes s).find? (fun p => p.1 == promptId)).map (·.2)

/-- `getCommentCodes`: same shape as `getPromptCodes`, other storage key. -/
def getCommentCodes (s : Storage) : List (String × String) :=
  match s.commentCodes with
  | .stored l => mapFromPairs l
  | _ => []

/-- `getCommentCode`: look up one comment id in the comment-code map. -/
def getCommentCode (commentId : String) (s : Storage) : Option String :=
  ((getCommentCodes s).find? (fun p => p.1 == commentId)).map (·.2)

/-- `clearVault`: `removeItem(VAULT_KEY)` inside try/catch; `removeItem`
cannot hit a quota error, so the slot simply becomes absent. -/
def clearVault (s : Storage) : Storage :=
  { s with vault := .absent }

/-! ## Vault synchronizer (VaultPage `syncWithServer`) -/

/-- `new Map(freshPrompts.map(p => [p.prompt_id, p])).get(id)`: a later entry
with the same id overwrites an earlier one, so this is a last-match lookup. -/
def findFresh : List Prompt → String → Option Prompt
  | [], _ => none
  | p :: rest, id =>
      match findFresh rest id with
      | some q => some q
      | none => if p.prompt_id == id then some p else none

/-- The in-memory update on batch success: map each local prompt to the
server's version when available (`freshPromptsMap.get(...) || localPrompt`),
then keep only ids the server confirmed (`freshPromptsMap.has(...)`). -/
def syncVault (localPrompts fresh : List Prompt) : List Prompt :=
  (localPrompts.map (fun lp => (findFresh fresh lp.prompt_id).getD lp)).filter
    (fun p => (findFresh fresh p.prompt_id).isSome)

/-- The local-storage cleanup on batch success: for each local prompt whose
id is not in the `freshIds` set, call `removePromptFromVault`. -/
def syncStorage (localPrompts fresh : List Prompt) (s : Storage) : Storage :=
  localPrompts.foldl
    (fun st lp =>
      if fresh.any (fun f => f.prompt_id == lp.prompt_id) then st
      else (removePromptFromVault lp.prompt_id st).2)
    s

/-- Outcome of the awaited `fetchPromptsBatch` call: a successful response
body, or a thrown error (network failure etc.) with its message. -/
inductive BatchResult where
  | ok (fresh : List Prompt) : BatchResult
  | err (msg : String) : BatchResult
deriving DecidableEq, Repr

/-- `syncWithServer`: on success update the displayed list and clean up local
storage and leave `batchError` null; on a thrown error keep the displayed
list and the storage exactly as loaded and set `batchError` to the message.
Returns (displayed prompt list, batchError, storage). -/
def syncWithServer (localPrompts : List Prompt) (result : BatchResult)
    (s : Storage) : List Prompt × Option String × Storage :=
  match result with
  | .ok fresh => (syncVault localPrompts fresh, none, syncStorage localPrompts fresh s)
  | .err msg => (localPrompts, some msg, s)

/-! ## Comment-count delta handlers (VaultPage) -/

/-- JS `(x || 0)` on an optional number. -/
def orZero (o : Option Int) : Int := o.getD 0

/-- `{ ...p, comment_count: (p.comment_count || 0) + 1 }`. -/
def bumpCount (p : Prompt) : Prompt :=
  { p with comment_count := some (orZero p.comment_count + 1) }

/-- `{ ...p, comment_count: Math.max(0, (p.comment_count || 0) - 1) }`. -/
def dropCount (p : Prompt) : Prompt :=
  { p with comment_count := some (max 0 (orZero p.comment_count - 1)) }

/-- `handleCommentAdded`: bump the count on every state entry with the id,
and persist the bumped copy of the first matching entry via
`savePromptToVault` when one exists.  Returns (new state list, new storage). -/
def handleCommentAdded (promptId : String) (vaultPrompts : List Prompt)
    (s : Storage) : List Prompt × Storage :=
  let promptToUpdate := vaultPrompts.find? (fun p => p.prompt_id == promptId)
  let newPrompts := vaultPrompts.map
    (fun p => if p.prompt_id == promptId then bumpCount p else p)
  match promptToUpdate with
  | some pu => (newPrompts, (savePromptToVault (bumpCount pu) s).2)
  | none => (newPrompts, s)

/-- `handleCommentDeleted`: same shape with the clamped decrement. -/
def handleCommentDeleted (promptId : String) (vaultPrompts : List Prompt)
    (s : Storage) : List Prompt × Storage :=
  let promptToUpdate := vaultPrompts.find? (fun p => p.prompt_id == promptId)
  let newPrompts := vaultPrompts.map
    (fun p => if p.prompt_id == promptId then dropCount p else p)
  match promptToUpdate with
  | some pu => (newPrompts, (savePromptToVault (dropCount pu) s).2)
  | none => (newPrompts, s)

/-- The persisted comment count of the first vault entry with a given id. -/
def storedCount (promptId : String) (s : Storage) : Option Int :=
  ((getVaultPrompts s).find? (fun p => p.prompt_id == promptId)).bind
    (fun p => p.comment_count)

/-! ## Sort comparator (VaultPage `displayedPrompts`) -/

/-- The values of the `sortCriteria` select. -/
inductive SortCriteria where
  | title_asc | title_desc
  | created_at_asc | created_at_desc
  | updated_at_asc | updated_at_desc
deriving DecidableEq, Repr

/-- `a.created_at ? new Date(a.created_at).getTime() : 0`: a missing (null /
undefined) or empty string is falsy and yields `0`; a non-empty string is
handed to `Date` parsing, modelled by the abstract `parse`, whose `none`
result stands for `NaN`. -/
def dateVal (parse : String → Option Int) (o : Option String) : Option Int :=
  match o with
  | none => some 0
  | some str => if str = "" then some 0 else parse str

/-- JS subtraction on possibly-NaN numbers: NaN propagates. -/
def osub : Option Int → Option Int → Option Int
  | some a, some b => some (a - b)
  | _, _ => none

/-- The comparator body of `displayedPrompts`' sort, parameterized by the
environment's `localeCompare` (`lc`) and date parsing (`parse`).  The result
`none` stands for NaN. -/
def sortCmp (lc : String → String → Int) (parse : String → Option Int)
    (crit : SortCriteria) (a b : Prompt) : Option Int :=
  match crit with
  | .title_asc => some (lc a.title b.title)
  | .title_desc => some (lc b.title a.title)
  | .created_at_asc => osub (dateVal parse a.created_at) (dateVal parse b.created_at)
  | .created_at_desc => osub (dateVal parse b.created_at) (dateVal parse a.created_at)
  | .updated_at_asc => osub (dateVal parse a.updated_at) (dateVal parse b.updated_at)
  | .updated_at_desc => osub (dateVal parse b.updated_at) (dateVal parse a.updated_at)

/-- The comparison `Array.prototype.sort` actually acts on: a NaN comparator
result is treated as `+0` (ECMAScript SortCompare). -/
def effSortCmp (lc : String → String → Int) (parse : String → Option Int)
    (crit : SortCriteria) (a b : Prompt) : Int :=
  (sortCmp lc parse crit a b).getD 0

/-- Modelled from the spec: "comparator must treat missing/unparseable date
strings as epoch 0".  The spec's date value: absent or unparseable both
collapse to 0 before subtracting. -/
def specDateVal (parse : String → Option Int) (o : Option String) : Int :=
  match o with
  | none => 0
  | some str => (parse str).getD 0

/-- Modelled from the spec: the comparator the spec sentence describes —
identical switch, but date values per `specDateVal`, so it never yields NaN. -/
def specSortCmp (lc : String → String → Int) (parse : String → Option Int)
    (crit : SortCriteria) (a b : Prompt) : Int :=
  match crit with
  | .title_asc => lc a.title b.title
  | .title_desc => lc b.title a.title
  | .created_at_asc => specDateVal parse a.created_at - specDateVal parse b.created_at
  | .created_at_desc => specDateVal parse b.created_at - specDateVal parse a.created_at
  | .updated_at_asc => specDateVal parse a.updated_at - specDateVal parse b.updated_at
  | .updated_at_desc => specDateVal parse b.updated_at - specDateVal parse a.updated_at

/-! ## Batch fetch guard (api.ts `fetchPromptsBatch`) -/

/-- `fetchPromptsBatch`: `if (!promptIds || promptIds.length === 0) return []`.
The network is the abstract `doFetch`; the returned Bool records whether a
request was issued.  `none` models a null/undefined argument. -/
def fetchPromptsBatch (doFetch : List String → Except String (List Prompt))
    (promptIds : Option (List String)) : Except String (List Prompt) × Bool :=
  match promptIds with
  | none => (.ok [], false)
  | some ids =>
      if ids.length = 0 then (.ok [], false)
      else (doFetch ids, true)

/-! ## Sample data for witnesses -/

/-- Sample prompt A. -/
def pA : Prompt :=
  ⟨"idA", "alpha", "body A", none, ["x"], some "2024-01-01", some "2024-01-02", some 2⟩

/-- Sample prompt B. -/
def pB : Prompt :=
  ⟨"idB", "beta", "body B", some "u", [], none, none, none⟩

/-- Sample prompt C. -/
def pC : Prompt :=
  ⟨"idC", "gamma", "body C", none, [], some "2024-02-01", some "2024-02-02", some 0⟩

/-- Server-side updated copy of `pA`. -/
def pA' : Prompt :=
  ⟨"idA", "alpha v2", "body A2", none, ["x", "y"], some "2024-01-01", some "2024-03-01", some 5⟩

/-- Server-side updated copy of `pC`. -/
def pC' : Prompt :=
  ⟨"idC", "gamma v2", "body C2", none, [], some "2024-02-01", some "2024-03-02", some 1⟩

/-- A storage state holding `[pA, pB, pC]` with working writes. -/
def sABC : Storage := ⟨.stored [pA, pB, pC], .absent, .absent, false⟩

/-! ## Helper lemmas -/

theorem getVaultPrompts_mk (s : Storage) (v : List Prompt) :
    getVaultPrompts { s with vault := .stored v } = v := rfl

theorem getVaultPrompts_of_stored {s : Storage} {v : List Prompt}
    (h : s.vault = .stored v) : getVaultPrompts s = v := by
  simp [getVaultPrompts, h]

theorem savePromptToVault_ok {s : Storage} (P : Prompt)
    (hw : s.writeFails = false) :
    savePromptToVault P s =
      (true, { s with vault := .stored (upsertList P (getVaultPrompts s)) }) := by
  simp [savePromptToVault, hw]

theorem savePromptToVault_fail {s : Storage} (P : Prompt)
    (hw : s.writeFails = true) : savePromptToVault P s = (false, s) := by
  simp [savePromptToVault, hw]

theorem find?_upsert {P : Prompt} {id : String} (h : P.prompt_id = id) :
    ∀ l : List Prompt,
      (upsertList P l).find? (fun q => q.prompt_id == id) = some P := by
  intro l
  induction l with
  | nil => simp [upsertList, List.find?, h]
  | cons q l ih =>
      by_cases hq : q.prompt_id = P.prompt_id
      · simp [upsertList, hq, List.find?, h]
      · have hq' : (q.prompt_id == P.prompt_id) = false := by
          simp [hq]
        have hqid : (q.prompt_id == id) = false := by
          simp [h ▸ hq]
        simp [upsertList, hq', List.find?, hqid, ih]

/-- `filter` with a negated predicate shrinks the list iff some element
satisfies the predicate. -/
theorem filter_not_length_lt_iff_any {α : Type} (pred : α → Bool) :
    ∀ l : List α,
      ((l.filter fun p => !(pred p)).length < l.length) ↔ l.any pred = true := by
  intro l
  induction l with
  | nil => simp
  | cons q l ih =>
      by_cases hq : pred q
      · constructor
        · intro _; simp [List.any_cons, hq]
        · intro _
          have hle := List.length_filter_le (fun p => !(pred p)) l
          simp only [List.filter_cons, hq, List.length_cons]
          simp only [Bool.not_true, Bool.false_eq_true, if_false]
          omega
      · have hq' : pred q = false := by simp [hq]
        simp only [List.filter_cons, hq', Bool.not_false, if_true,
          List.length_cons, List.any_cons, Bool.false_or, add_lt_add_iff_right, ih]

theorem removePromptFromVault_none {s : Storage} {promptId : String}
    (h : (getVaultPrompts s).any (fun p => p.prompt_id == promptId) = false) :
    removePromptFromVault promptId s = (false, s) := by
  unfold removePromptFromVault
  have hlt := (filter_not_length_lt_iff_any
      (fun p => p.prompt_id == promptId) (getVaultPrompts s))
  rw [h] at hlt
  simp only [Bool.false_eq_true, iff_false, not_lt] at hlt
  simp [Nat.not_lt.mpr hlt]

theorem removePromptFromVault_stored {s : Storage} {v : List Prompt}
    {promptId : String} (hw : s.writeFails = false) (hv : s.vault = .stored v) :
    (removePromptFromVault promptId s).2 =
      { s with vault := .stored (v.filter fun p => !(p.prompt_id == promptId)) } := by
  unfold removePromptFromVault
  have hcur : getVaultPrompts s = v := getVaultPrompts_of_stored hv
  rw [hcur]
  by_cases hlt : (v.filter fun p => !(p.prompt_id == promptId)).length < v.length
  · simp [hlt, hw]
  · have hle := List.length_filter_le (fun p => !(p.prompt_id == promptId)) v
    have heq : (v.filter fun p => !(p.prompt_id == promptId)) = v :=
      (List.filter_sublist v).eq_of_length (Nat.le_antisymm hle (Nat.not_lt.mp hlt))
    simp only [hlt, if_false]
    cases s with
    | mk vs ps cs wf =>
        simp only at hv
        simp [heq, hv]

theorem upsertList_length_of_any {P : Prompt} :
    ∀ {l : List Prompt}, l.any (fun q => q.prompt_id == P.prompt_id) = true →
      (upsertList P l).length = l.length := by
  intro l
  induction l with
  | nil => intro h; simp at h
  | cons q l ih =>
      intro h
      by_cases hq : q.prompt_id = P.prompt_id
      · simp [upsertList, hq]
      · have hq' : (q.prompt_id == P.prompt_id) = false := by simp [hq]
        rw [List.any_cons, hq', Bool.false_or] at h
        simp [upsertList, hq', ih h]

theorem upsertList_of_not_any {P : Prompt} :
    ∀ {l : List Prompt}, l.any (fun q => q.prompt_id == P.prompt_id) = false →
      upsertList P l = l ++ [P] := by
  intro l
  induction l with
  | nil => intro _; rfl
  | cons q l ih =>
      intro h
      rw [List.any_cons, Bool.or_eq_false_iff] at h
      simp [upsertList, h.1, ih h.2]

theorem upsertList_position {P q : Prompt} (hq : q.prompt_id = P.prompt_id) :
    ∀ (l₁ l₂ : List Prompt), (∀ x ∈ l₁, x.prompt_id ≠ P.prompt_id) →
      upsertList P (l₁ ++ q :: l₂) = l₁ ++ P :: l₂ := by
  intro l₁
  induction l₁ with
  | nil =>
      intro l₂ _
      simp [upsertList, hq]
  | cons x l₁ ih =>
      intro l₂ hx
      have hx' : (x.prompt_id == P.prompt_id) = false := by
        simp [hx x (List.mem_cons_self x l₁)]
      simp only [List.cons_append, upsertList, hx', Bool.false_eq_true, if_false]
      show x :: upsertList P (l₁ ++ q :: l₂) = x :: (l₁ ++ P :: l₂)
      rw [ih l₂ (fun y hy => hx y (List.mem_cons_of_mem x hy))]

theorem upsertList_countP {P : Prompt} :
    ∀ {l : List Prompt},
      l.countP (fun q => q.prompt_id == P.prompt_id) ≤ 1 →
      (upsertList P l).countP (fun q => q.prompt_id == P.prompt_id) = 1 ∧
      ∀ q ∈ upsertList P l, q.prompt_id = P.prompt_id → q = P := by
  intro l
  induction l with
  | nil =>
      intro _
      constructor
      · simp [upsertList, List.countP_cons]
      · intro q hq _
        simpa [upsertList] using hq
  | cons x l ih =>
      intro h
      by_cases hx : x.prompt_id = P.prompt_id
      · have hx' : (x.prompt_id == P.prompt_id) = true := by simp [hx]
        simp only [List.countP_cons, hx', if_true] at h
        have hzero : l.countP (fun q => q.prompt_id == P.prompt_id) = 0 := by omega
        have hnone : ∀ q ∈ l, (q.prompt_id == P.prompt_id) = false := by
          intro q hql
          by_contra hc
          have hq1 : (q.prompt_id == P.prompt_id) = true := by
            cases hb : (q.prompt_id == P.prompt_id) with
            | false => exact absurd hb hc
            | true => rfl
          have hpos : 0 < l.countP (fun q => q.prompt_id == P.prompt_id) :=
            List.countP_pos_iff.mpr ⟨q, hql, hq1⟩
          omega
        constructor
        · simp [upsertList, hx', List.countP_cons, hzero]
        · intro q hq hqid
          simp only [upsertList, hx', if_true, List.mem_cons] at hq
          rcases hq with rfl | hql
          · rfl
          · have hq1 : (q.prompt_id == P.prompt_id) = true := by simp [hqid]
            rw [hnone q hql] at hq1
            exact absurd hq1 (by decide)
      · have hx' : (x.prompt_id == P.prompt_id) = false := by simp [hx]
        rw [List.countP_cons, hx'] at h
        simp only [Bool.false_eq_true, if_false, Nat.add_zero] at h
        obtain ⟨hcount, hmem⟩ := ih h
        constructor
        · simp [upsertList, hx', List.countP_cons, hcount]
        · intro q hq hqid
          simp only [upsertList, hx', Bool.false_eq_true, if_false,
            List.mem_cons] at hq
          rcases hq with rfl | hql
          · exact absurd hqid hx
          · exact hmem q hql hqid

theorem findFresh_id : ∀ {fresh : List Prompt} {id : String} {q : Prompt},
    findFresh fresh id = some q → q.prompt_id = id := by
  intro fresh
  induction fresh with
  | nil => intro id q h; simp [findFresh] at h
  | cons p rest ih =>
      intro id q h
      unfold findFresh at h
      cases hr : findFresh rest id with
      | some q' =>
          rw [hr] at h
          cases h
          exact ih hr
      | none =>
          rw [hr] at h
          by_cases hp : (p.prompt_id == id) = true
          · rw [if_pos hp] at h
            cases h
            exact eq_of_beq hp
          · rw [if_neg hp] at h
            cases h

theorem findFresh_isSome : ∀ (fresh : List Prompt) (id : String),
    (findFresh fresh id).isSome = fresh.any (fun f => f.prompt_id == id) := by
  intro fresh
  induction fresh with
  | nil => intro id; rfl
  | cons p rest ih =>
      intro id
      unfold findFresh
      cases hr : findFresh rest id with
      | some q' =>
          have hrest : rest.any (fun f => f.prompt_id == id) = true := by
            rw [← ih id, hr]; rfl
          simp [List.any_cons, hrest]
      | none =>
          have hrest : rest.any (fun f => f.prompt_id == id) = false := by
            rw [← ih id, hr]; rfl
          cases hp : (p.prompt_id == id) with
          | true => simp [List.any_cons, hp, hrest]
          | false => simp [List.any_cons, hp, hrest]

theorem syncVault_eq_filterMap (fresh : List Prompt) : ∀ l : List Prompt,
    syncVault l fresh = l.filterMap (fun lp => findFresh fresh lp.prompt_id) := by
  intro l
  induction l with
  | nil => rfl
  | cons lp l ih =>
      unfold syncVault at *
      cases h : findFresh fresh lp.prompt_id with
      | none =>
          simp only [List.map_cons, h, Option.getD_none, List.filter_cons, h,
            Option.isSome_none, Bool.false_eq_true, if_false,
            List.filterMap_cons, ih]
      | some q =>
          have hq : q.prompt_id = lp.prompt_id := findFresh_id h
          simp only [List.map_cons, h, Option.getD_some, List.filter_cons, hq, h,
            Option.isSome_some, if_true, List.filterMap_cons, ih]

theorem syncVault_ids (fresh : List Prompt) : ∀ l : List Prompt,
    (syncVault l fresh).map (fun p => p.prompt_id) =
      (l.map (fun p => p.prompt_id)).filter
        (fun id => fresh.any (fun f => f.prompt_id == id)) := by
  intro l
  induction l with
  | nil => rfl
  | cons lp l ih =>
      rw [syncVault_eq_filterMap] at ih ⊢
      cases h : findFresh fresh lp.prompt_id with
      | none =>
          have hany : fresh.any (fun f => f.prompt_id == lp.prompt_id) = false := by
            rw [← findFresh_isSome, h]; rfl
          simp only [List.filterMap_cons, h, List.map_cons, List.filter_cons,
            hany, Bool.false_eq_true, if_false, ih]
      | some q =>
          have hq : q.prompt_id = lp.prompt_id := findFresh_id h
          have hany : fresh.any (fun f => f.prompt_id == lp.prompt_id) = true := by
            rw [← findFresh_isSome, h]; rfl
          simp only [List.filterMap_cons, h, List.map_cons, hq,
            List.filter_cons, hany, if_true, ih]

theorem syncVault_mem_fresh {fresh l : List Prompt} :
    ∀ p ∈ syncVault l fresh, findFresh fresh p.prompt_id = some p := by
  intro p hp
  rw [syncVault_eq_filterMap] at hp
  rw [List.mem_filterMap] at hp
  obtain ⟨lp, _, he⟩ := hp
  rw [findFresh_id he]
  exact he

theorem syncStorage_stored (fresh : List Prompt) : ∀ (todo : List Prompt)
    (s : Storage) (v : List Prompt), s.writeFails = false →
    s.vault = .stored v →
    syncStorage todo fresh s =
      { s with vault := .stored (v.filter (fun p =>
          todo.all (fun lp => fresh.any (fun f => f.prompt_id == lp.prompt_id) ||
            !(p.prompt_id == lp.prompt_id)))) } := by
  intro todo
  induction todo with
  | nil =>
      intro s v hw hv
      obtain ⟨vs, pc, cc, wf⟩ := s
      simp only at hv
      subst hv
      simp [syncStorage, List.all_nil, List.filter_true]
  | cons lp todo' ih =>
      intro s v hw hv
      obtain ⟨vs, pc, cc, wf⟩ := s
      simp only at hv hw
      subst hv
      subst hw
      unfold syncStorage at *
      simp only [List.foldl_cons]
      by_cases hfresh : fresh.any (fun f => f.prompt_id == lp.prompt_id) = true
      · rw [if_pos hfresh, ih _ v rfl rfl]
        have hpred : (fun p : Prompt =>
            (lp :: todo').all (fun lp' =>
              fresh.any (fun f => f.prompt_id == lp'.prompt_id) ||
                !(p.prompt_id == lp'.prompt_id))) =
            (fun p : Prompt =>
              todo'.all (fun lp' =>
                fresh.any (fun f => f.prompt_id == lp'.prompt_id) ||
                  !(p.prompt_id == lp'.prompt_id))) := by
          funext p
          rw [List.all_cons, hfresh, Bool.true_or, Bool.true_and]
        rw [hpred]
      · have hfresh' : fresh.any (fun f => f.prompt_id == lp.prompt_id) = false :=
          Bool.eq_false_iff.mpr hfresh
        rw [if_neg hfresh]
        rw [removePromptFromVault_stored (s := ⟨.stored v, pc, cc, false⟩) rfl rfl]
        rw [ih _ _ rfl rfl]
        have heq : (v.filter (fun p => !(p.prompt_id == lp.prompt_id))).filter
            (fun p => todo'.all (fun lp' =>
              fresh.any (fun f => f.prompt_id == lp'.prompt_id) ||
                !(p.prompt_id == lp'.prompt_id))) =
            v.filter (fun p => (lp :: todo').all (fun lp' =>
              fresh.any (fun f => f.prompt_id == lp'.prompt_id) ||
                !(p.prompt_id == lp'.prompt_id))) := by
          rw [List.filter_filter]
          have hpred : (fun p : Prompt =>
              (todo'.all (fun lp' =>
                fresh.any (fun f => f.prompt_id == lp'.prompt_id) ||
                  !(p.prompt_id == lp'.prompt_id)) &&
                !(p.prompt_id == lp.prompt_id))) =
              (fun p : Prompt =>
                (lp :: todo').all (fun lp' =>
                  fresh.any (fun f => f.prompt_id == lp'.prompt_id) ||
                    !(p.prompt_id == lp'.prompt_id))) := by
            funext p
            rw [List.all_cons, hfresh', Bool.false_or, Bool.and_comm]
          rw [hpred]
        rw [heq]

/-! ## Claim theorems: Local Vault Store basics -/

/-- C6: `getVaultPrompts` is a total read: an absent key or a corrupt stored
value yields the empty list (never an exception), and a well-formed stored
list is returned as persisted. -/
theorem getVaultPrompts_total_read (s : Storage) :
    (s.vault = .absent → getVaultPrompts s = []) ∧
    (s.vault = .corrupt → getVaultPrompts s = []) ∧
    (∀ l : List Prompt, s.vault = .stored l → getVaultPrompts s = l) := by
  refine ⟨?_, ?_, ?_⟩
  · intro h; simp [getVaultPrompts, h]
  · intro h; simp [getVaultPrompts, h]
  · intro l h; simp [getVaultPrompts, h]

/-- Witness for C6 at a concrete corrupt store and a concrete stored list. -/
theorem getVaultPrompts_total_read_witness :
    getVaultPrompts ⟨.corrupt, .absent, .absent, false⟩ = [] ∧
    getVaultPrompts sABC = [pA, pB, pC] :=
  ⟨(getVaultPrompts_total_read ⟨.corrupt, .absent, .absent, false⟩).2.1 rfl,
   (getVaultPrompts_total_read sABC).2.2 [pA, pB, pC] rfl⟩

/-- C8: after `clearVault` the vault reads empty and no id (in particular no
previously saved id) is reported as vaulted. -/
theorem clearVault_post_state (s : Storage) (id : String) :
    getVaultPrompts (clearVault s) = [] ∧
    isPromptInVault id (clearVault s) = false :=
  ⟨rfl, rfl⟩

/-- C9: `clearVault` only touches the vault prompt-list record; both
modification-code maps and their lookups are untouched. -/
theorem clearVault_frame (s : Storage) (id : String) :
    getPromptCodes (clearVault s) = getPromptCodes s ∧
    getCommentCodes (clearVault s) = getCommentCodes s ∧
    getPromptCode id (clearVault s) = getPromptCode id s ∧
    getCommentCode id (clearVault s) = getCommentCode id s :=
  ⟨rfl, rfl, rfl, rfl⟩

/-- C10: `fetchPromptsBatch` with a null/undefined or empty id list resolves
to the empty array without issuing a network request (second component
`false`), independently of the network behaviour, hence cannot fail. -/
theorem fetchPromptsBatch_empty_guard
    (doFetch : List String → Except String (List Prompt)) :
    fetchPromptsBatch doFetch none = (.ok [], false) ∧
    fetchPromptsBatch doFetch (some []) = (.ok [], false) :=
  ⟨rfl, rfl⟩

/-- C3: when the batch fetch throws, `syncWithServer` leaves the displayed
list and the storage exactly as before and surfaces the error message as a
non-fatal `batchError`. -/
theorem syncWithServer_failure_atomic (localPrompts : List Prompt)
    (msg : String) (s : Storage) :
    syncWithServer localPrompts (.err msg) s = (localPrompts, some msg, s) ∧
    getVaultPrompts (syncWithServer localPrompts (.err msg) s).2.2 =
      getVaultPrompts s :=
  ⟨rfl, rfl⟩

/-- C7: `removePromptFromVault` returns `true` iff an entry with the id was
present (and then the persisted list is the one with that id filtered out);
on an id that is not present it returns `false` and the storage is returned
unchanged — no write occurs. -/
theorem removePromptFromVault_contract (promptId : String) (s : Storage)
    (hw : s.writeFails = false) :
    ((removePromptFromVault promptId s).1 = true ↔
      (getVaultPrompts s).any (fun p => p.prompt_id == promptId) = true) ∧
    ((getVaultPrompts s).any (fun p => p.prompt_id == promptId) = true →
      getVaultPrompts (removePromptFromVault promptId s).2 =
        (getVaultPrompts s).filter (fun p => !(p.prompt_id == promptId))) ∧
    ((getVaultPrompts s).any (fun p => p.prompt_id == promptId) = false →
      removePromptFromVault promptId s = (false, s)) := by
  refine ⟨?_, ?_, ?_⟩
  · by_cases h : (getVaultPrompts s).any (fun p => p.prompt_id == promptId) = true
    · simp only [h, iff_true]
      have hlt := (filter_not_length_lt_iff_any
          (fun p => p.prompt_id == promptId) (getVaultPrompts s)).mpr h
      unfold removePromptFromVault
      simp [hlt, hw]
    · have h' : (getVaultPrompts s).any (fun p => p.prompt_id == promptId) = false :=
        Bool.eq_false_iff.mpr h
      rw [removePromptFromVault_none h']
      simp [h']
  · intro h
    cases hv : s.vault with
    | stored v =>
        rw [removePromptFromVault_stored hw hv, getVaultPrompts_mk,
          getVaultPrompts_of_stored hv]
    | absent =>
        rw [getVaultPrompts_total_read s |>.1 hv] at h
        simp at h
    | corrupt =>
        rw [(getVaultPrompts_total_read s).2.1 hv] at h
        simp at h
  · exact removePromptFromVault_none

/-- C2: `savePromptToVault` is an in-place upsert.  With working writes it
returns `true` and persists `upsertList P` of the old list; the upsert keeps
the length when the id is present, replaces exactly at the id's current
position, appends when absent, and (when the old list respects the unique-id
invariant) yields exactly one entry with P's id, and that entry is P itself.
Any persistence failure is reported as `false` with storage unchanged. -/
theorem savePromptToVault_upsert (P : Prompt) (s : Storage)
    (hw : s.writeFails = false) (l : List Prompt)
    (hl : getVaultPrompts s = l) :
    (savePromptToVault P s).1 = true ∧
    getVaultPrompts (savePromptToVault P s).2 = upsertList P l ∧
    (l.any (fun q => q.prompt_id == P.prompt_id) = true →
      (upsertList P l).length = l.length) ∧
    (∀ l₁ q l₂, l = l₁ ++ q :: l₂ → q.prompt_id = P.prompt_id →
      (∀ x ∈ l₁, x.prompt_id ≠ P.prompt_id) →
      upsertList P l = l₁ ++ P :: l₂) ∧
    (l.any (fun q => q.prompt_id == P.prompt_id) = false →
      upsertList P l = l ++ [P]) ∧
    (l.countP (fun q => q.prompt_id == P.prompt_id) ≤ 1 →
      (upsertList P l).countP (fun q => q.prompt_id == P.prompt_id) = 1 ∧
      ∀ q ∈ upsertList P l, q.prompt_id = P.prompt_id → q = P) ∧
    (∀ t : Storage, t.writeFails = true → savePromptToVault P t = (false, t)) := by
  refine ⟨?_, ?_, upsertList_length_of_any, ?_, upsertList_of_not_any,
    upsertList_countP, fun t ht => savePromptToVault_fail P ht⟩
  · rw [savePromptToVault_ok P hw]
  · rw [savePromptToVault_ok P hw, getVaultPrompts_mk, hl]
  · intro l₁ q l₂ hsplit hq hleft
    rw [hsplit]
    exact upsertList_position hq l₁ l₂ hleft

/-- Witness for C2: replacing `pC` (present at the last position) by its
updated copy `pC'` keeps the list shape, and the follow-up read shows exactly
the upserted list. -/
theorem savePromptToVault_upsert_witness :
    (savePromptToVault pC' sABC).1 = true ∧
    getVaultPrompts (savePromptToVault pC' sABC).2 = [pA, pB, pC'] := by
  have h := savePromptToVault_upsert pC' sABC rfl [pA, pB, pC] rfl
  refine ⟨h.1, ?_⟩
  rw [h.2.1]
  decide

/-- C1: batch-sync reconciliation on success.  The displayed list keeps
exactly the locally known ids the server returned (in local order), every
kept entry is the server-provided version for its id, and the persisted
vault is the local list with every id not returned by the batch removed. -/
theorem batchSync_reconciliation (localPrompts fresh : List Prompt)
    (s : Storage) (hw : s.writeFails = false)
    (hv : s.vault = .stored localPrompts) :
    ((syncWithServer localPrompts (.ok fresh) s).1).map (fun p => p.prompt_id) =
      (localPrompts.map (fun p => p.prompt_id)).filter
        (fun id => fresh.any (fun f => f.prompt_id == id)) ∧
    (∀ p ∈ (syncWithServer localPrompts (.ok fresh) s).1,
      findFresh fresh p.prompt_id = some p) ∧
    getVaultPrompts (syncWithServer localPrompts (.ok fresh) s).2.2 =
      localPrompts.filter
        (fun p => fresh.any (fun f => f.prompt_id == p.prompt_id)) := by
  refine ⟨syncVault_ids fresh localPrompts, syncVault_mem_fresh, ?_⟩
  show getVaultPrompts (syncStorage localPrompts fresh s) = _
  rw [syncStorage_stored fresh localPrompts s localPrompts hw hv,
    getVaultPrompts_mk]
  apply List.filter_congr
  intro p hp
  by_cases hf : fresh.any (fun f => f.prompt_id == p.prompt_id) = true
  · rw [hf]
    apply List.all_eq_true.mpr
    intro lp _
    by_cases hid : (p.prompt_id == lp.prompt_id) = true
    · have hpe : p.prompt_id = lp.prompt_id := eq_of_beq hid
      rw [← hpe, hf, Bool.true_or]
    · rw [Bool.eq_false_iff.mpr hid, Bool.not_false, Bool.or_true]
  · have hf' : fresh.any (fun f => f.prompt_id == p.prompt_id) = false :=
      Bool.eq_false_iff.mpr hf
    rw [hf']
    apply Bool.eq_false_iff.mpr
    intro hall
    have hme := List.all_eq_true.mp hall p hp
    rw [hf'] at hme
    simp at hme

/-- Witness for C1: local `{A, B, C}` with batch response `{A', C'}` (updated
copies of A and C) displays exactly the ids `A, C` and persists exactly the
local entries for `A` and `C`; `B` is gone from both. -/
theorem batchSync_reconciliation_witness :
    ((syncWithServer [pA, pB, pC] (.ok [pA', pC']) sABC).1).map
        (fun p => p.prompt_id) = ["idA", "idC"] ∧
    getVaultPrompts (syncWithServer [pA, pB, pC] (.ok [pA', pC']) sABC).2.2 =
      [pA, pC] := by
  have h := batchSync_reconciliation [pA, pB, pC] [pA', pC'] sABC rfl rfl
  refine ⟨?_, ?_⟩
  · rw [h.1]; decide
  · rw [h.2.2]; decide

/-- C4: comment-count deltas on a vaulted prompt.  A `+1` followed by a `-1`
restores the persisted count; a `-1` at count `0` (or absent, which reads as
`0`) persists `0`; the persisted count after a delta is never negative. -/
theorem commentDelta_roundtrip_clamp (id : String) (l : List Prompt)
    (s : Storage) (p : Prompt) (hw : s.writeFails = false)
    (hv : s.vault = .stored l)
    (hp : l.find? (fun q => q.prompt_id == id) = some p) :
    (∀ n : Int, p.comment_count = some n → 0 ≤ n →
      storedCount id (handleCommentDeleted id
        (handleCommentAdded id l s).1 (handleCommentAdded id l s).2).2 = some n) ∧
    (orZero p.comment_count = 0 →
      storedCount id (handleCommentDeleted id l s).2 = some 0) ∧
    (∃ c : Int, storedCount id (handleCommentDeleted id l s).2 = some c ∧ 0 ≤ c) := by
  have hpid : p.prompt_id = id := by
    have h1 := List.find?_some hp
    exact eq_of_beq (by simpa using h1)
  have hl : getVaultPrompts s = l := getVaultPrompts_of_stored hv
  have hAdd : handleCommentAdded id l s =
      (l.map (fun q => if q.prompt_id == id then bumpCount q else q),
       { s with vault := .stored (upsertList (bumpCount p) l) }) := by
    simp only [handleCommentAdded, hp, savePromptToVault_ok _ hw, hl]
  have hDel0 : handleCommentDeleted id l s =
      (l.map (fun q => if q.prompt_id == id then dropCount q else q),
       { s with vault := .stored (upsertList (dropCount p) l) }) := by
    simp only [handleCommentDeleted, hp, savePromptToVault_ok _ hw, hl]
  have hfind1 : (l.map (fun q => if q.prompt_id == id then bumpCount q else q)).find?
      (fun q => q.prompt_id == id) = some (bumpCount p) := by
    rw [List.find?_map]
    have hcomp : ((fun q : Prompt => q.prompt_id == id) ∘
        (fun q => if q.prompt_id == id then bumpCount q else q)) =
        (fun q : Prompt => q.prompt_id == id) := by
      funext q
      by_cases hq : q.prompt_id = id
      · simp [Function.comp, hq, bumpCount]
      · simp [Function.comp, hq]
    rw [hcomp, hp, Option.map_some']
    simp [hpid]
  have hstoredD : ∀ (P : Prompt), P.prompt_id = id → ∀ (t : Storage)
      (v : List Prompt), t.vault = .stored (upsertList P v) →
      storedCount id t = P.comment_count := by
    intro P hP t v ht
    unfold storedCount
    rw [getVaultPrompts_of_stored ht, find?_upsert hP]
    rfl
  refine ⟨?_, ?_, ?_⟩
  · intro n hn hnn
    rw [hAdd]
    have hw1 : ({ s with vault := Slot.stored (upsertList (bumpCount p) l) } :
        Storage).writeFails = false := hw
    simp only [handleCommentDeleted, hfind1, savePromptToVault_ok _ hw1,
      getVaultPrompts_mk]
    rw [hstoredD (dropCount (bumpCount p)) hpid _
      (upsertList (bumpCount p) l) rfl]
    simp only [dropCount, bumpCount, orZero, hn, Option.getD_some]
    rw [add_sub_cancel_right, max_eq_right hnn]
  · intro hzero
    rw [hDel0, hstoredD (dropCount p) hpid _ l rfl]
    simp only [dropCount, orZero] at hzero ⊢
    rw [hzero]
    norm_num
  · refine ⟨max 0 (orZero p.comment_count - 1), ?_, le_max_left _ _⟩
    rw [hDel0, hstoredD (dropCount p) hpid _ l rfl]
    rfl

/-- Witness for C4: on `pC` (count 0) a `-1` persists 0; on `pA` (count 2) a
`+1` then `-1` persists 2 again. -/
theorem commentDelta_roundtrip_clamp_witness :
    storedCount "idA" (handleCommentDeleted "idA"
      (handleCommentAdded "idA" [pA, pB, pC] sABC).1
      (handleCommentAdded "idA" [pA, pB, pC] sABC).2).2 = some 2 ∧
    storedCount "idC" (handleCommentDeleted "idC" [pA, pB, pC] sABC).2 = some 0 := by
  constructor
  · exact (commentDelta_roundtrip_clamp "idA" [pA, pB, pC] sABC pA rfl rfl
      (by decide)).1 2 rfl (by decide)
  · exact (commentDelta_roundtrip_clamp "idC" [pA, pB, pC] sABC pC rfl rfl
      (by decide)).2.1 (by decide)

/-- A date-parsing environment in which `"1971"` parses to its epoch
milliseconds and every other string (including `""`) is unparseable (NaN). -/
def parse0 : String → Option Int :=
  fun str => if str = "1971" then some 31536000000 else none

/-- A trivial `localeCompare` environment. -/
def lc0 : String → String → Int := fun _ _ => 0

/-- A prompt whose `created_at` holds a non-empty unparseable date string. -/
def aJunk : Prompt := ⟨"a", "t", "c", none, [], some "junk", none, none⟩

/-- A prompt whose `created_at` parses under `parse0`. -/
def b1971 : Prompt := ⟨"b", "t", "c", none, [], some "1971", none, none⟩

/-- Counterexample to C5 as stated: with an unparseable `created_at` on one
side, the code's comparator yields NaN — which the sort treats as 0, i.e.
"equal" — while treating the unparseable string as epoch 0 (as the spec
demands) would order `aJunk` strictly before `b1971`.  So the comparator
does not treat an unparseable date string as epoch 0. -/
theorem sortCmp_unparseable_counterexample :
    effSortCmp lc0 parse0 .created_at_asc aJunk b1971 ≠
      specSortCmp lc0 parse0 .created_at_asc aJunk b1971 := by
  decide

/-- C5 (amended): the comparator treats a missing (or empty) date string as
epoch 0; and whenever every non-empty date string of the two prompts is
parseable (and `""` is unparseable, as for JS `Date`), the effective
comparison agrees with the spec's epoch-0 comparator — but a non-empty
unparseable date string instead yields NaN, which the sort treats as
"equal". -/
theorem sortCmp_date_handling (lc : String → String → Int)
    (parse : String → Option Int) (crit : SortCriteria) (a b : Prompt)
    (hE : parse "" = none)
    (ha1 : ∀ str, a.created_at = some str → str ≠ "" → (parse str).isSome = true)
    (hb1 : ∀ str, b.created_at = some str → str ≠ "" → (parse str).isSome = true)
    (ha2 : ∀ str, a.updated_at = some str → str ≠ "" → (parse str).isSome = true)
    (hb2 : ∀ str, b.updated_at = some str → str ≠ "" → (parse str).isSome = true) :
    effSortCmp lc parse crit a b = specSortCmp lc parse crit a b ∧
    dateVal parse none = some 0 ∧ dateVal parse (some "") = some 0 := by
  have hdv : ∀ o : Option String,
      (∀ str, o = some str → str ≠ "" → (parse str).isSome = true) →
      dateVal parse o = some (specDateVal parse o) := by
    intro o hok
    cases o with
    | none => rfl
    | some str =>
        by_cases hs : str = ""
        · subst hs
          simp [dateVal, specDateVal, hE]
        · obtain ⟨t, ht⟩ := Option.isSome_iff_exists.mp (hok str rfl hs)
          simp [dateVal, specDateVal, hs, ht]
  refine ⟨?_, rfl, by simp [dateVal]⟩
  cases crit with
  | title_asc => rfl
  | title_desc => rfl
  | created_at_asc =>
      show (osub (dateVal parse a.created_at) (dateVal parse b.created_at)).getD 0 = _
      rw [hdv a.created_at ha1, hdv b.created_at hb1]
      rfl
  | created_at_desc =>
      show (osub (dateVal parse b.created_at) (dateVal parse a.created_at)).getD 0 = _
      rw [hdv a.created_at ha1, hdv b.created_at hb1]
      rfl
  | updated_at_asc =>
      show (osub (dateVal parse a.updated_at) (dateVal parse b.updated_at)).getD 0 = _
      rw [hdv a.updated_at ha2, hdv b.updated_at hb2]
      rfl
  | updated_at_desc =>
      show (osub (dateVal parse b.updated_at) (dateVal parse a.updated_at)).getD 0 = _
      rw [hdv a.updated_at ha2, hdv b.updated_at hb2]
      rfl

/-- Witness for the amended C5 at a concrete environment: `b1971`'s date
parses, `pB`'s dates are missing, and the effective comparison agrees with
the spec comparator. -/
theorem sortCmp_date_handling_witness :
    effSortCmp lc0 parse0 .created_at_asc pB b1971 =
      specSortCmp lc0 parse0 .created_at_asc pB b1971 ∧
    dateVal parse0 none = some 0 :=
  have h := sortCmp_date_handling lc0 parse0 .created_at_asc pB b1971
    (by decide)
    (fun str h => nomatch h)
    (fun str h _ => by
      have hs : str = "1971" := by
        have : (some "1971" : Option String) = some str := h ▸ rfl
        exact (Option.some_inj.mp this).symm
      rw [hs]; decide)
    (fun str h => nomatch h)
    (fun str h => nomatch h)
  ⟨h.1, h.2.1⟩

/-- Witness for C7: removing a present id succeeds and filters it out;
removing an absent id returns `false` with the storage untouched. -/
theorem removePromptFromVault_contract_witness :
    (removePromptFromVault "idB" sABC).1 = true ∧
    (removePromptFromVault "nope" sABC = (false, sABC)) :=
  ⟨(removePromptFromVault_contract "idB" sABC rfl).1.mpr (by decide),
   (removePromptFromVault_contract "nope" sABC rfl).2.2 (by decide)⟩

end PromptBase
